import Mathlib

/-!
Shallow embedding of `src/prim.rs` of the nkd-w4 crate.

`Color` is a `repr(transparent)` wrapper around a `u32`; we model the `u32`
as a natural number (all values produced by the API stay below `2 ^ 32`,
and theorems that depend on the `u32` domain carry that bound as a
hypothesis).  The endianness-dependent byte indexing of the `Index` /
`IndexMut` impls is modelled by an explicit byte-offset-to-bit-shift map
per byte order, and the raw pointer byte read/write is modelled as the
corresponding bit-field extraction/replacement on the packed integer.
The host palette register (`w4::PALETTE`) is modelled as a function
`Fin 4 → Nat`, and the spin mutex guarding the `PALETTE` static as a
boolean lock flag in a small process-state record.
-/

namespace NkdW4

/-- Host byte order, selecting between the two `cfg(target_endian)` branches
of the channel indexing code. -/
inductive Endian where
  | little
  | big
deriving DecidableEq

/-- The `ColorChannel` enum of `src/prim.rs`. -/
inductive ColorChannel where
  | Red
  | Green
  | Blue
deriving DecidableEq

/-- The `PaletteColor` enum of `src/prim.rs`. -/
inductive PaletteColor where
  | Color1
  | Color2
  | Color3
  | Color4
deriving DecidableEq

/-- `PaletteColor::as_palette_index`. -/
def PaletteColor.as_palette_index : PaletteColor → Nat
  | .Color1 => 0
  | .Color2 => 1
  | .Color3 => 2
  | .Color4 => 3

/-- `Color`: `repr(transparent)` wrapper around a `u32`; `val` is the packed
integer. -/
structure Color where
  val : Nat
deriving DecidableEq

/-- `Color::rgb`: the three bytes are zero-extended to `u32`, shifted into
place and or-ed together. -/
def Color.rgb (red green blue : Nat) : Color :=
  Color.mk (red <<< 16 ||| green <<< 8 ||| blue <<< 0)

/-- `Color::grayscale`. -/
def Color.grayscale (value : Nat) : Color :=
  Color.rgb value value value

/-- `Color::with_red`: mask-and-or on the packed integer. -/
def Color.with_red (c : Color) (red : Nat) : Color :=
  Color.mk (c.val &&& 0xff00ffff ||| red <<< 16)

/-- `Color::with_green`: mask-and-or on the packed integer. -/
def Color.with_green (c : Color) (green : Nat) : Color :=
  Color.mk (c.val &&& 0xffff00ff ||| green <<< 8)

/-- `Color::with_blue`: mask-and-or on the packed integer. -/
def Color.with_blue (c : Color) (blue : Nat) : Color :=
  Color.mk (c.val &&& 0xffffff00 ||| blue <<< 0)

/-- `Color::BLACK`. -/
def Color.BLACK : Color :=
  Color.rgb 0 0 0

/-- `impl Default for Color`. -/
def Color.default : Color :=
  Color.BLACK

/-- `impl From<u32> for Color`. -/
def Color.fromU32 (source : Nat) : Color :=
  Color.mk source

/-- `impl From<Color> for u32`. -/
def Color.toU32 (source : Color) : Nat :=
  source.val

/-- The channel-to-byte-offset match in `impl ops::Index<ColorChannel> for
Color`: `{Red:2, Green:1, Blue:0}` under `target_endian = "little"` and
`{Red:1, Green:2, Blue:3}` under `target_endian = "big"`. -/
def channelOffset (e : Endian) (channel : ColorChannel) : Nat :=
  match e, channel with
  | .little, .Red => 2
  | .little, .Green => 1
  | .little, .Blue => 0
  | .big, .Red => 1
  | .big, .Green => 2
  | .big, .Blue => 3

/-- The identical channel-to-byte-offset match repeated in
`impl ops::IndexMut<ColorChannel> for Color`. -/
def channelOffsetMut (e : Endian) (channel : ColorChannel) : Nat :=
  match e, channel with
  | .little, .Red => 2
  | .little, .Green => 1
  | .little, .Blue => 0
  | .big, .Red => 1
  | .big, .Green => 2
  | .big, .Blue => 3

/-- Bit position of memory byte `i` of the in-memory representation of a
`u32` under byte order `e`: on a little-endian host byte `i` holds bits
`8*i .. 8*i+7`, on a big-endian host byte `i` holds bits
`8*(3-i) .. 8*(3-i)+7`. -/
def offsetShift (e : Endian) (i : Nat) : Nat :=
  match e with
  | .little => 8 * i
  | .big => 8 * (3 - i)

/-- Reading memory byte `i` of the representation of `x : u32` — the
`*const u8` offset read performed by the `Index<ColorChannel>` impl. -/
def byteAt (e : Endian) (x i : Nat) : Nat :=
  x / 2 ^ offsetShift e i % 256

/-- Storing `v` into memory byte `i` of the representation of `x : u32` —
the effect of the `*mut u8` offset write enabled by the
`IndexMut<ColorChannel>` impl: bits above and below the addressed byte are
untouched and the byte itself becomes `v`. -/
def setByteAt (e : Endian) (x i v : Nat) : Nat :=
  2 ^ (offsetShift e i + 8) * (x / 2 ^ (offsetShift e i + 8)) +
    2 ^ offsetShift e i * v + x % 2 ^ offsetShift e i

/-- `impl ops::Index<ColorChannel> for Color`: read the byte at the
channel's offset. -/
def Color.channelGet (e : Endian) (c : Color) (channel : ColorChannel) : Nat :=
  byteAt e c.val (channelOffset e channel)

/-- `impl ops::IndexMut<ColorChannel> for Color` followed by a byte store:
the assignment `c[channel] = v`. -/
def Color.channelSet (e : Endian) (c : Color) (channel : ColorChannel) (v : Nat) : Color :=
  Color.mk (setByteAt e c.val (channelOffsetMut e channel) v)

/-- Bits 24–31 of the packed container (the unused top byte). -/
def topByte (x : Nat) : Nat :=
  x / 2 ^ 24 % 256

/-- The host palette register `w4::PALETTE`: four `u32` entries. -/
abbrev PaletteReg : Type :=
  Fin 4 → Nat

/-- `impl ops::Index<PaletteColor> for Palette`: `&unsafe { *w4::PALETTE }`
borrows a temporary — the `unsafe` block is a value expression, so it copies
the `[u32; 4]` array out of the raw pointer — and the transmuted reference
returned by `index` points into that copy, dangling once `index` returns.
The value it denotes is the copy's entry at `as_palette_index`, which at the
moment of the copy equals the host register's entry. -/
def paletteGet (reg : PaletteReg) (c : PaletteColor) : Color :=
  let temporary := reg
  Color.mk (temporary ⟨c.as_palette_index, by cases c <;> decide⟩)

/-- The function-local temporary that `&mut unsafe { *w4::PALETTE }` borrows
in `impl ops::IndexMut<PaletteColor> for Palette` — again a copy of the
`[u32; 4]` array, since the `unsafe` block is a value expression — after the
store `palette[c] = v` into it: this copy is where the written value lands. -/
def paletteSetTemp (reg : PaletteReg) (c : PaletteColor) (v : Color) : PaletteReg :=
  Function.update reg ⟨c.as_palette_index, by cases c <;> decide⟩ v.val

/-- `impl ops::IndexMut<PaletteColor> for Palette` followed by a store: the
net effect of the assignment `palette[c] = v` on the host register.  The
written value lands in `paletteSetTemp reg c v`, a temporary that is
discarded when `index_mut` returns, so the host register itself is never
written and is left unchanged. -/
def paletteSet (reg : PaletteReg) (c : PaletteColor) (v : Color) : PaletteReg :=
  let temporary := paletteSetTemp reg c v
  reg

/-- The process state relevant to the palette: the host register and the
state of the spin mutex guarding the `PALETTE` static. -/
structure World where
  reg : PaletteReg
  locked : Bool

/-- Locking the `PALETTE` mutex: yields a (unique) handle only when the
mutex is not already held. -/
def acquire (w : World) : Option World :=
  if w.locked then none else some (World.mk w.reg true)

/-- Dropping the `Palette` guard releases the mutex. -/
def release (w : World) : World :=
  World.mk w.reg false

/-- `palette[c] = v` performed through a held handle. -/
def worldSet (w : World) (c : PaletteColor) (v : Color) : World :=
  World.mk (paletteSet w.reg c v) w.locked

/-- `palette[c]` read through a held handle. -/
def worldGet (w : World) (c : PaletteColor) : Color :=
  paletteGet w.reg c

/-- Acquire the palette, write `palette[Color2] = rgb(10,20,30)`, release,
reacquire, read `palette[Color2]`. -/
def writeReadScenario (w : World) : Option Color :=
  (acquire w).bind fun w1 =>
    (acquire (release (worldSet w1 .Color2 (Color.rgb 10 20 30)))).map fun w2 =>
      worldGet w2 .Color2

/-- Or-ing a value whose low `i` bits are clear with a value below `2 ^ i`
is addition (byte fields at disjoint positions combine additively). -/
theorem or_eq_add_low (a b i : Nat) (hb : b < 2 ^ i) :
    2 ^ i * a ||| b = 2 ^ i * a + b :=
  (Nat.mul_add_lt_is_or hb a).symm

/-- Value of the packed integer built by `Color::rgb`. -/
theorem rgb_val (r g b : Nat) (hr : r < 256) (hg : g < 256) (hb : b < 256) :
    (Color.rgb r g b).val = 65536 * r + 256 * g + b := by
  show r <<< 16 ||| g <<< 8 ||| b <<< 0 = _
  rw [Nat.shiftLeft_eq, Nat.shiftLeft_eq, Nat.shiftLeft_eq, pow_zero, mul_one]
  rw [show r * 2 ^ 16 = 2 ^ 16 * r by ring, show g * 2 ^ 8 = 2 ^ 8 * g by ring]
  rw [or_eq_add_low r (2 ^ 8 * g) 16 (by omega)]
  rw [show 2 ^ 16 * r + 2 ^ 8 * g = 2 ^ 8 * (2 ^ 8 * r + g) by ring]
  rw [or_eq_add_low (2 ^ 8 * r + g) b 8 (by omega)]
  ring

/-- And-ing a `u32` value with the mask that clears the byte at bit
position `s` keeps the bits above `s + 8` and below `s` and zeroes the
byte in between. -/
theorem and_mask_clear (x s : Nat) (hx : x < 2 ^ 32) (hs : s + 8 ≤ 32) :
    x &&& (2 ^ 32 - 2 ^ (s + 8) + (2 ^ s - 1)) =
      2 ^ (s + 8) * (x / 2 ^ (s + 8)) + x % 2 ^ s := by
  have hmask : 2 ^ 32 - 2 ^ (s + 8) + (2 ^ s - 1) =
      2 ^ (s + 8) * (2 ^ (32 - (s + 8)) - 1) + (2 ^ s - 1) := by
    have h32 : s + 8 + (32 - (s + 8)) = 32 := by omega
    rw [Nat.mul_sub_left_distrib, mul_one, ← pow_add, h32]
  rw [hmask]
  apply Nat.eq_of_testBit_eq
  intro j
  have hps : (2 : Nat) ^ s < 2 ^ (s + 8) :=
    Nat.pow_lt_pow_right (by norm_num) (by omega)
  have hlow : 2 ^ s - 1 < 2 ^ (s + 8) :=
    lt_of_le_of_lt (Nat.sub_le _ _) hps
  have hmod : x % 2 ^ s < 2 ^ (s + 8) :=
    lt_trans (Nat.mod_lt x (Nat.two_pow_pos s)) hps
  rw [Nat.testBit_and, Nat.testBit_mul_pow_two_add _ hlow j,
    Nat.testBit_mul_pow_two_add _ hmod j]
  by_cases h1 : j < s + 8
  · simp only [h1, if_true, Nat.testBit_two_pow_sub_one, Nat.testBit_mod_two_pow]
    exact Bool.and_comm _ _
  · simp only [h1, if_false, Nat.testBit_two_pow_sub_one]
    rw [← Nat.shiftRight_eq_div_pow, Nat.testBit_shiftRight,
      show s + 8 + (j - (s + 8)) = j by omega]
    by_cases h2 : j < 32
    · rw [decide_eq_true (show j - (s + 8) < 32 - (s + 8) by omega), Bool.and_true]
    · have hbit : x.testBit j = false := by
        apply Nat.testBit_lt_two_pow
        calc x < 2 ^ 32 := hx
          _ ≤ 2 ^ j := Nat.pow_le_pow_right (by norm_num) (by omega)
      rw [hbit, decide_eq_false (show ¬(j - (s + 8) < 32 - (s + 8)) by omega),
        Bool.false_and]

/-- Or-ing a value whose byte at bit position `s` is clear with a byte
shifted to position `s` inserts the byte there, leaving the other bits
unchanged. -/
theorem or_insert_byte (h l v s : Nat) (hl : l < 2 ^ s) (hv : v < 2 ^ 8) :
    2 ^ (s + 8) * h + l ||| v <<< s = 2 ^ (s + 8) * h + (2 ^ s * v + l) := by
  apply Nat.eq_of_testBit_eq
  intro j
  have hps : (2 : Nat) ^ s < 2 ^ (s + 8) :=
    Nat.pow_lt_pow_right (by norm_num) (by omega)
  have hl8 : l < 2 ^ (s + 8) := by omega
  have hvl : 2 ^ s * v + l < 2 ^ (s + 8) := by
    have h1 : 2 ^ s * v + l < 2 ^ s * (v + 1) := by
      rw [Nat.mul_add, mul_one]
      omega
    have h2 : 2 ^ s * (v + 1) ≤ 2 ^ s * 2 ^ 8 :=
      Nat.mul_le_mul_left _ (by omega)
    rw [← pow_add] at h2
    omega
  rw [Nat.testBit_or, Nat.testBit_mul_pow_two_add _ hl8 j,
    Nat.testBit_mul_pow_two_add _ hvl j, Nat.testBit_mul_pow_two_add _ hl j,
    Nat.testBit_shiftLeft]
  rcases Nat.lt_or_ge j s with h1 | h1
  · simp [show j < s + 8 by omega, h1, show ¬(j ≥ s) by omega]
  · rcases Nat.lt_or_ge j (s + 8) with h2 | h2
    · have hlb : l.testBit j = false := by
        apply Nat.testBit_lt_two_pow
        calc l < 2 ^ s := hl
          _ ≤ 2 ^ j := Nat.pow_le_pow_right (by norm_num) h1
      simp [h2, show ¬j < s by omega, h1, hlb]
    · have hvb : v.testBit (j - s) = false := by
        apply Nat.testBit_lt_two_pow
        calc v < 2 ^ 8 := hv
          _ ≤ 2 ^ (j - s) := Nat.pow_le_pow_right (by norm_num) (by omega)
      simp [show ¬j < s + 8 by omega, h1, hvb]

/-- Value of the packed integer built by `Color::with_red`. -/
theorem with_red_val (c : Color) (v : Nat) (hc : c.val < 2 ^ 32) (hv : v < 256) :
    (c.with_red v).val = 16777216 * (c.val / 16777216) + 65536 * v + c.val % 65536 := by
  show c.val &&& 0xff00ffff ||| v <<< 16 = _
  rw [show (0xff00ffff : Nat) = 2 ^ 32 - 2 ^ (16 + 8) + (2 ^ 16 - 1) by norm_num]
  rw [and_mask_clear c.val 16 hc (by norm_num)]
  rw [or_insert_byte (c.val / 2 ^ (16 + 8)) (c.val % 2 ^ 16) v 16 (Nat.mod_lt _ (by norm_num)) (by omega)]
  norm_num [Nat.add_assoc]

/-- Value of the packed integer built by `Color::with_green`. -/
theorem with_green_val (c : Color) (v : Nat) (hc : c.val < 2 ^ 32) (hv : v < 256) :
    (c.with_green v).val = 65536 * (c.val / 65536) + 256 * v + c.val % 256 := by
  show c.val &&& 0xffff00ff ||| v <<< 8 = _
  rw [show (0xffff00ff : Nat) = 2 ^ 32 - 2 ^ (8 + 8) + (2 ^ 8 - 1) by norm_num]
  rw [and_mask_clear c.val 8 hc (by norm_num)]
  rw [or_insert_byte (c.val / 2 ^ (8 + 8)) (c.val % 2 ^ 8) v 8 (Nat.mod_lt _ (by norm_num)) (by omega)]
  norm_num [Nat.add_assoc]

/-- Value of the packed integer built by `Color::with_blue`. -/
theorem with_blue_val (c : Color) (v : Nat) (hc : c.val < 2 ^ 32) (hv : v < 256) :
    (c.with_blue v).val = 256 * (c.val / 256) + v := by
  show c.val &&& 0xffffff00 ||| v <<< 0 = _
  rw [show (0xffffff00 : Nat) = 2 ^ 32 - 2 ^ (0 + 8) + (2 ^ 0 - 1) by norm_num]
  rw [and_mask_clear c.val 0 hc (by norm_num)]
  rw [or_insert_byte (c.val / 2 ^ (0 + 8)) (c.val % 2 ^ 0) v 0 (Nat.mod_lt _ (by norm_num)) (by omega)]
  norm_num [Nat.mod_one]

/-- C1: for every `r`, `g`, `b` of type `u8`, constructing a color with
`rgb(r,g,b)` and then reading each channel by index returns the original
component, where the channel read maps the logical channel to the byte
offset `{Red:2, Green:1, Blue:0}` on little-endian hosts and
`{Red:1, Green:2, Blue:3}` on big-endian hosts. -/
theorem rgb_channel_roundtrip (e : Endian) (r g b : Nat)
    (hr : r < 256) (hg : g < 256) (hb : b < 256) :
    (Color.rgb r g b).channelGet e .Red = r ∧
    (Color.rgb r g b).channelGet e .Green = g ∧
    (Color.rgb r g b).channelGet e .Blue = b ∧
    channelOffset .little .Red = 2 ∧ channelOffset .little .Green = 1 ∧
    channelOffset .little .Blue = 0 ∧ channelOffset .big .Red = 1 ∧
    channelOffset .big .Green = 2 ∧ channelOffset .big .Blue = 3 := by
  have hv := rgb_val r g b hr hg hb
  refine ⟨?_, ?_, ?_, rfl, rfl, rfl, rfl, rfl, rfl⟩ <;>
    cases e <;>
      (simp [Color.channelGet, byteAt, offsetShift, channelOffset, hv]) <;>
      omega

theorem rgb_channel_roundtrip_witness :
    ((10 : Nat) < 256 ∧ (20 : Nat) < 256 ∧ (30 : Nat) < 256) ∧
    ((Color.rgb 10 20 30).channelGet .little .Red = 10 ∧
      (Color.rgb 10 20 30).channelGet .little .Green = 20 ∧
      (Color.rgb 10 20 30).channelGet .little .Blue = 30 ∧
      channelOffset .little .Red = 2 ∧ channelOffset .little .Green = 1 ∧
      channelOffset .little .Blue = 0 ∧ channelOffset .big .Red = 1 ∧
      channelOffset .big .Green = 2 ∧ channelOffset .big .Blue = 3) :=
  ⟨⟨by norm_num, by norm_num, by norm_num⟩,
    rgb_channel_roundtrip .little 10 20 30 (by norm_num) (by norm_num) (by norm_num)⟩

/-- C2: for every `r`, `g`, `b` of type `u8`, the raw 32-bit integer
underlying `Color::rgb(r,g,b)` has the red byte in bits 16–23, the green
byte in bits 8–15, the blue byte in bits 0–7, and bits 24–31 equal to
zero; `u32::from(Color::rgb(r,g,b)) = r * 65536 + g * 256 + b`,
independent of host byte order (neither `rgb` nor the conversion consults
the byte order). -/
theorem rgb_packed_value (r g b : Nat) (hr : r < 256) (hg : g < 256) (hb : b < 256) :
    Color.toU32 (Color.rgb r g b) = r * 65536 + g * 256 + b ∧
    Color.toU32 (Color.rgb r g b) / 2 ^ 16 % 256 = r ∧
    Color.toU32 (Color.rgb r g b) / 2 ^ 8 % 256 = g ∧
    Color.toU32 (Color.rgb r g b) % 256 = b ∧
    Color.toU32 (Color.rgb r g b) / 2 ^ 24 = 0 := by
  have hv := rgb_val r g b hr hg hb
  refine ⟨?_, ?_, ?_, ?_, ?_⟩ <;> (simp [Color.toU32, hv]) <;> omega

theorem rgb_packed_value_witness :
    ((10 : Nat) < 256 ∧ (20 : Nat) < 256 ∧ (30 : Nat) < 256) ∧
    (Color.toU32 (Color.rgb 10 20 30) = 10 * 65536 + 20 * 256 + 30 ∧
      Color.toU32 (Color.rgb 10 20 30) / 2 ^ 16 % 256 = 10 ∧
      Color.toU32 (Color.rgb 10 20 30) / 2 ^ 8 % 256 = 20 ∧
      Color.toU32 (Color.rgb 10 20 30) % 256 = 30 ∧
      Color.toU32 (Color.rgb 10 20 30) / 2 ^ 24 = 0) :=
  ⟨⟨by norm_num, by norm_num, by norm_num⟩,
    rgb_packed_value 10 20 30 (by norm_num) (by norm_num) (by norm_num)⟩

/-- C7: conversion between `Color` and the raw 32-bit integer is a lossless
round trip in both directions; `grayscale(v) = rgb(v,v,v)`; and
`Color::default() = rgb(0,0,0)`. -/
theorem conversions_roundtrip (c : Color) (x v : Nat) (hx : x < 2 ^ 32) :
    Color.fromU32 (Color.toU32 c) = c ∧
    Color.toU32 (Color.fromU32 x) = x ∧
    Color.grayscale v = Color.rgb v v v ∧
    Color.default = Color.rgb 0 0 0 :=
  ⟨rfl, rfl, rfl, rfl⟩

theorem conversions_roundtrip_witness :
    (5 : Nat) < 2 ^ 32 ∧
    (Color.fromU32 (Color.toU32 (Color.rgb 1 2 3)) = Color.rgb 1 2 3 ∧
      Color.toU32 (Color.fromU32 5) = 5 ∧
      Color.grayscale 7 = Color.rgb 7 7 7 ∧
      Color.default = Color.rgb 0 0 0) :=
  ⟨by norm_num, conversions_roundtrip (Color.rgb 1 2 3) 5 7 (by norm_num)⟩

/-- C10: every byte offset computed from a `ColorChannel` in the channel
read and write implementations is at most 3 on both little-endian and
big-endian builds, so the pointer-offset access into the 4-byte `Color`
container is in bounds for every channel argument. -/
theorem channel_offset_in_bounds (e : Endian) (ch : ColorChannel) :
    channelOffset e ch ≤ 3 ∧ channelOffsetMut e ch ≤ 3 := by
  cases e <;> cases ch <;> exact ⟨by decide, by decide⟩

/-- Two `Color` values with the same packed integer are equal. -/
theorem Color.val_injective {c d : Color} (h : c.val = d.val) : c = d := by
  cases c
  cases d
  cases h
  rfl

/-- C3: for every color `c`, channel `ch`, and `u8` value `v`, performing
the indexed write `c[ch] = v` and then reading `c[ch]` yields `v`, while
each other channel and the unused top byte of the packed 32-bit container
are bit-for-bit unchanged from their pre-write values. -/
theorem channel_write_read (e : Endian) (c : Color) (ch ch' : ColorChannel) (v : Nat)
    (hv : v < 256) (hc : c.val < 2 ^ 32) (hne : ch' ≠ ch) :
    (c.channelSet e ch v).channelGet e ch = v ∧
    (c.channelSet e ch v).channelGet e ch' = c.channelGet e ch' ∧
    topByte (c.channelSet e ch v).val = topByte c.val := by
  refine ⟨?_, ?_, ?_⟩ <;>
    cases e <;> cases ch <;> cases ch' <;>
      (try exact absurd rfl hne) <;>
      (simp [Color.channelSet, Color.channelGet, setByteAt, byteAt, offsetShift,
        channelOffset, channelOffsetMut, topByte]) <;>
      omega

theorem channel_write_read_witness :
    ((77 : Nat) < 256 ∧ (Color.rgb 1 2 3).val < 2 ^ 32 ∧
      ColorChannel.Green ≠ ColorChannel.Red) ∧
    (((Color.rgb 1 2 3).channelSet .little .Red 77).channelGet .little .Red = 77 ∧
      ((Color.rgb 1 2 3).channelSet .little .Red 77).channelGet .little .Green =
        (Color.rgb 1 2 3).channelGet .little .Green ∧
      topByte ((Color.rgb 1 2 3).channelSet .little .Red 77).val =
        topByte (Color.rgb 1 2 3).val) :=
  ⟨⟨by norm_num, by decide, by decide⟩,
    channel_write_read .little (Color.rgb 1 2 3) .Red .Green 77
      (by norm_num) (by decide) (by decide)⟩

/-- C9: channel reads decode the logical bit fields for every raw 32-bit
value, not only for colors built by `rgb`: `Color::from(x)[Red]` is
`(x >> 16) & 0xff`, `[Green]` is `(x >> 8) & 0xff`, `[Blue]` is `x & 0xff`,
on either byte order, and a nonzero top byte (bits 24–31, here replaced by
an arbitrary byte `t`) never affects any channel read. -/
theorem raw_channel_decode (e : Endian) (x t : Nat) (hx : x < 2 ^ 32) (ht : t < 256) :
    (Color.fromU32 x).channelGet e .Red = x >>> 16 &&& 0xff ∧
    (Color.fromU32 x).channelGet e .Green = x >>> 8 &&& 0xff ∧
    (Color.fromU32 x).channelGet e .Blue = x &&& 0xff ∧
    (Color.fromU32 (x % 2 ^ 24 + 2 ^ 24 * t)).channelGet e .Red =
      (Color.fromU32 x).channelGet e .Red ∧
    (Color.fromU32 (x % 2 ^ 24 + 2 ^ 24 * t)).channelGet e .Green =
      (Color.fromU32 x).channelGet e .Green ∧
    (Color.fromU32 (x % 2 ^ 24 + 2 ^ 24 * t)).channelGet e .Blue =
      (Color.fromU32 x).channelGet e .Blue := by
  have hand : ∀ y : Nat, y &&& 0xff = y % 256 := by
    intro y
    have h := Nat.and_pow_two_sub_one_eq_mod y 8
    norm_num at h
    exact h
  refine ⟨?_, ?_, ?_, ?_, ?_, ?_⟩ <;>
    cases e <;>
      (simp [Color.fromU32, Color.channelGet, byteAt, offsetShift, channelOffset,
        hand, Nat.shiftRight_eq_div_pow]) <;>
      omega

theorem raw_channel_decode_witness :
    ((305419896 : Nat) < 2 ^ 32 ∧ (9 : Nat) < 256) ∧
    ((Color.fromU32 305419896).channelGet .little .Red = 305419896 >>> 16 &&& 0xff ∧
      (Color.fromU32 305419896).channelGet .little .Green = 305419896 >>> 8 &&& 0xff ∧
      (Color.fromU32 305419896).channelGet .little .Blue = 305419896 &&& 0xff ∧
      (Color.fromU32 (305419896 % 2 ^ 24 + 2 ^ 24 * 9)).channelGet .little .Red =
        (Color.fromU32 305419896).channelGet .little .Red ∧
      (Color.fromU32 (305419896 % 2 ^ 24 + 2 ^ 24 * 9)).channelGet .little .Green =
        (Color.fromU32 305419896).channelGet .little .Green ∧
      (Color.fromU32 (305419896 % 2 ^ 24 + 2 ^ 24 * 9)).channelGet .little .Blue =
        (Color.fromU32 305419896).channelGet .little .Blue) :=
  ⟨⟨by norm_num, by norm_num⟩,
    raw_channel_decode .little 305419896 9 (by norm_num) (by norm_num)⟩

set_option maxHeartbeats 1000000 in
/-- C6: `with_red(c, v)` (likewise `with_green`, `with_blue`) returns a new
`Color` in which exactly the targeted channel's 8-bit field equals `v` and
every other bit of the packed 32-bit container — the other two channels'
fields and the top byte — is bit-for-bit identical to `c`; in particular
`with_red(rgb(r,g,b), v) = rgb(v,g,b)` and likewise for the other two. -/
theorem with_channel_frame (c : Color) (r g b v : Nat)
    (hc : c.val < 2 ^ 32) (hr : r < 256) (hg : g < 256) (hb : b < 256) (hv : v < 256) :
    (c.with_red v).val / 2 ^ 16 % 256 = v ∧
    (c.with_red v).val % 2 ^ 16 = c.val % 2 ^ 16 ∧
    (c.with_red v).val / 2 ^ 24 = c.val / 2 ^ 24 ∧
    (c.with_green v).val / 2 ^ 8 % 256 = v ∧
    (c.with_green v).val % 2 ^ 8 = c.val % 2 ^ 8 ∧
    (c.with_green v).val / 2 ^ 16 = c.val / 2 ^ 16 ∧
    (c.with_blue v).val % 2 ^ 8 = v ∧
    (c.with_blue v).val / 2 ^ 8 = c.val / 2 ^ 8 ∧
    (Color.rgb r g b).with_red v = Color.rgb v g b ∧
    (Color.rgb r g b).with_green v = Color.rgb r v b ∧
    (Color.rgb r g b).with_blue v = Color.rgb r g v := by
  have h1 := with_red_val c v hc hv
  have h2 := with_green_val c v hc hv
  have h3 := with_blue_val c v hc hv
  have hval := rgb_val r g b hr hg hb
  have hlt : (Color.rgb r g b).val < 2 ^ 32 := by
    rw [hval]
    omega
  have h4 := with_red_val (Color.rgb r g b) v hlt hv
  have h5 := with_green_val (Color.rgb r g b) v hlt hv
  have h6 := with_blue_val (Color.rgb r g b) v hlt hv
  have hv2 := rgb_val v g b hv hg hb
  have hv3 := rgb_val r v b hr hv hb
  have hv4 := rgb_val r g v hr hg hv
  refine ⟨by rw [h1]; omega, by rw [h1]; omega, by rw [h1]; omega,
    by rw [h2]; omega, by rw [h2]; omega, by rw [h2]; omega,
    by rw [h3]; omega, by rw [h3]; omega, ?_, ?_, ?_⟩
  · refine Color.val_injective ?_
    rw [h4, hval, hv2]
    omega
  · refine Color.val_injective ?_
    rw [h5, hval, hv3]
    omega
  · refine Color.val_injective ?_
    rw [h6, hval, hv4]
    omega

theorem with_channel_frame_witness :
    ((Color.fromU32 4660).val < 2 ^ 32 ∧ (1 : Nat) < 256 ∧ (2 : Nat) < 256 ∧
      (3 : Nat) < 256 ∧ (9 : Nat) < 256) ∧
    (((Color.fromU32 4660).with_red 9).val / 2 ^ 16 % 256 = 9 ∧
      ((Color.fromU32 4660).with_red 9).val % 2 ^ 16 = (Color.fromU32 4660).val % 2 ^ 16 ∧
      ((Color.fromU32 4660).with_red 9).val / 2 ^ 24 = (Color.fromU32 4660).val / 2 ^ 24 ∧
      ((Color.fromU32 4660).with_green 9).val / 2 ^ 8 % 256 = 9 ∧
      ((Color.fromU32 4660).with_green 9).val % 2 ^ 8 = (Color.fromU32 4660).val % 2 ^ 8 ∧
      ((Color.fromU32 4660).with_green 9).val / 2 ^ 16 = (Color.fromU32 4660).val / 2 ^ 16 ∧
      ((Color.fromU32 4660).with_blue 9).val % 2 ^ 8 = 9 ∧
      ((Color.fromU32 4660).with_blue 9).val / 2 ^ 8 = (Color.fromU32 4660).val / 2 ^ 8 ∧
      (Color.rgb 1 2 3).with_red 9 = Color.rgb 9 2 3 ∧
      (Color.rgb 1 2 3).with_green 9 = Color.rgb 1 9 3 ∧
      (Color.rgb 1 2 3).with_blue 9 = Color.rgb 1 2 9) :=
  ⟨⟨by decide, by norm_num, by norm_num, by norm_num, by norm_num⟩,
    with_channel_frame (Color.fromU32 4660) 1 2 3 9 (by decide)
      (by norm_num) (by norm_num) (by norm_num) (by norm_num)⟩

/-- C4, code bug: the claim (and the impl's own safety comment about
aliasing the primitive palette binding) requires the slot write to store
through to the host register, but `&mut unsafe { *w4::PALETTE }` borrows a
temporary copy of the register, so the store is discarded.  With the
register initially all zeros, the scenario acquire, write
`palette[Color2] = rgb(10,20,30)`, release, reacquire, read
`palette[Color2]` yields the old content `rgb(0,0,0)` — not the written
`rgb(10,20,30)`, which landed only in the dropped temporary
`paletteSetTemp`. -/
theorem palette_write_dropped :
    writeReadScenario (World.mk (fun i => 0) false) = some (Color.rgb 0 0 0) ∧
    Color.rgb 0 0 0 ≠ Color.rgb 10 20 30 ∧
    paletteSetTemp (fun i => 0) .Color2 (Color.rgb 10 20 30) ⟨1, by decide⟩ =
      (Color.rgb 10 20 30).val :=
  ⟨rfl, by decide, by simp [paletteSetTemp, PaletteColor.as_palette_index]⟩

/-- C5, code bug: the claim requires that after writing four distinct
colors to the four slots through a held handle, reading the slots back
yields exactly the written colors; but every slot write lands in a
discarded temporary copy of the register, so with the register initially
all zeros every read-back still yields `rgb(0,0,0)`, not the color written
to that slot. -/
theorem slot_writes_dropped :
    (paletteGet (paletteSet (paletteSet (paletteSet (paletteSet (fun i => 0)
        .Color1 (Color.rgb 1 0 0)) .Color2 (Color.rgb 0 1 0)) .Color3 (Color.rgb 0 0 1))
        .Color4 (Color.rgb 1 1 1)) .Color1 = Color.rgb 0 0 0 ∧
      paletteGet (paletteSet (paletteSet (paletteSet (paletteSet (fun i => 0)
        .Color1 (Color.rgb 1 0 0)) .Color2 (Color.rgb 0 1 0)) .Color3 (Color.rgb 0 0 1))
        .Color4 (Color.rgb 1 1 1)) .Color2 = Color.rgb 0 0 0 ∧
      paletteGet (paletteSet (paletteSet (paletteSet (paletteSet (fun i => 0)
        .Color1 (Color.rgb 1 0 0)) .Color2 (Color.rgb 0 1 0)) .Color3 (Color.rgb 0 0 1))
        .Color4 (Color.rgb 1 1 1)) .Color3 = Color.rgb 0 0 0 ∧
      paletteGet (paletteSet (paletteSet (paletteSet (paletteSet (fun i => 0)
        .Color1 (Color.rgb 1 0 0)) .Color2 (Color.rgb 0 1 0)) .Color3 (Color.rgb 0 0 1))
        .Color4 (Color.rgb 1 1 1)) .Color4 = Color.rgb 0 0 0) ∧
    (Color.rgb 0 0 0 ≠ Color.rgb 1 0 0 ∧ Color.rgb 0 0 0 ≠ Color.rgb 0 1 0 ∧
      Color.rgb 0 0 0 ≠ Color.rgb 0 0 1 ∧ Color.rgb 0 0 0 ≠ Color.rgb 1 1 1) :=
  ⟨⟨rfl, rfl, rfl, rfl⟩, by decide, by decide, by decide, by decide⟩

/-- C8, counterexample: as stated the claim is false — `Color::from`
admits two values that differ only in the unused top byte; their `Red`,
`Green` and `Blue` channel reads agree on either byte order, yet the
derived equality on the packed `u32` distinguishes them. -/
theorem packed_rep_not_unique :
    (Color.fromU32 16777216).channelGet .little .Red =
      (Color.fromU32 0).channelGet .little .Red ∧
    (Color.fromU32 16777216).channelGet .little .Green =
      (Color.fromU32 0).channelGet .little .Green ∧
    (Color.fromU32 16777216).channelGet .little .Blue =
      (Color.fromU32 0).channelGet .little .Blue ∧
    (Color.fromU32 16777216).channelGet .big .Red =
      (Color.fromU32 0).channelGet .big .Red ∧
    (Color.fromU32 16777216).channelGet .big .Green =
      (Color.fromU32 0).channelGet .big .Green ∧
    (Color.fromU32 16777216).channelGet .big .Blue =
      (Color.fromU32 0).channelGet .big .Blue ∧
    Color.fromU32 16777216 ≠ Color.fromU32 0 := by
  decide

/-- C8, amended: restricted to `Color` values whose unused top byte
(bits 24–31) is zero — which includes every value built by `rgb` — the
channel decomposition determines the packed value: if the `Red`, `Green`
and `Blue` channel reads of two such values agree, the values are equal. -/
theorem packed_low24_unique (e : Endian) (c d : Color)
    (hc : c.val < 2 ^ 24) (hd : d.val < 2 ^ 24)
    (hR : c.channelGet e .Red = d.channelGet e .Red)
    (hG : c.channelGet e .Green = d.channelGet e .Green)
    (hB : c.channelGet e .Blue = d.channelGet e .Blue) :
    c = d := by
  refine Color.val_injective ?_
  cases e <;>
    (simp [Color.channelGet, byteAt, offsetShift, channelOffset] at hR hG hB) <;>
    omega

theorem packed_low24_unique_witness :
    ((Color.rgb 1 2 3).val < 2 ^ 24 ∧ (Color.fromU32 66051).val < 2 ^ 24 ∧
      (Color.rgb 1 2 3).channelGet .little .Red =
        (Color.fromU32 66051).channelGet .little .Red ∧
      (Color.rgb 1 2 3).channelGet .little .Green =
        (Color.fromU32 66051).channelGet .little .Green ∧
      (Color.rgb 1 2 3).channelGet .little .Blue =
        (Color.fromU32 66051).channelGet .little .Blue) ∧
    Color.rgb 1 2 3 = Color.fromU32 66051 :=
  ⟨⟨by decide, by decide, by decide, by decide, by decide⟩,
    packed_low24_unique .little (Color.rgb 1 2 3) (Color.fromU32 66051)
      (by decide) (by decide) (by decide) (by decide) (by decide)⟩

end NkdW4
